import Mathlib

/-!
Verification of the gocyclolib library (src/gocyclolib.go).

Shallow embedding conventions:
- The Go AST node kinds that the complexity visitor inspects are embedded as
  `NodeKind`; every node kind the visitor ignores is collapsed into
  representative uncounted constructors (`funcLit`, `switchStmt`, `selectStmt`,
  `otherNode`), since the visitor treats them all alike.
- `ast.Walk` with the always-self-returning `complexityVisitor` threads the
  integer counter through a pre-order traversal; it is embedded as
  `walkNode` / `walkForest` with the state transition `visitStep` taken from
  `complexityVisitor.Visit`.
- File-system effects (`os.Stat`, `parser.ParseFile`, `filepath.Walk`) are
  abstracted into an environment record `FS`; `filepath.Walk` is embedded as a
  fold over the traversal order it would produce, aborting when the callback
  returns a non-nil error, exactly as documented for `filepath.Walk`.
- Go nil slices: in this program a `[]stat` slice is nil iff it is empty
  (slices are only ever grown by `append` from a nil start), so `[]stat` is
  embedded as `List stat` and the `statsGlobal == nil` test as equality
  with `[]`.
- `float64` appears only in `average`, as a quotient of two exactly
  representable integers; it is embedded as `F64`, exact rationals extended
  with the IEEE special values produced by division by zero.
- `sort.Sort(byComplexity(...))` is embedded as a comparison sort
  (insertion sort) driven by the `byComplexity.Less` comparator.
- `os.PathSeparator` is the forward slash (the target platform is Unix-like).
-/

namespace Gocyclolib

/-- Binary operator tokens, as far as `complexityVisitor.Visit` distinguishes
them: `token.LAND`, `token.LOR`, and every other binary operator. -/
inductive GoTok where
  | land
  | lor
  | otherOp
deriving DecidableEq

/-- Node kinds of the embedded Go AST. The first six are the kinds counted by
`complexityVisitor.Visit`; `binaryExpr` carries its operator token; the last
four stand for all remaining (uncounted) node kinds. -/
inductive NodeKind where
  | funcDecl
  | ifStmt
  | forStmt
  | rangeStmt
  | caseClause
  | commClause
  | binaryExpr (op : GoTok)
  | funcLit
  | switchStmt
  | selectStmt
  | otherNode
deriving DecidableEq

mutual
/-- A Go AST node: its kind together with its children in walk order. -/
inductive GoNode where
  | mk (kind : NodeKind) (children : GoForest)

/-- A list of sibling Go AST nodes. -/
inductive GoForest where
  | nil
  | cons (n : GoNode) (f : GoForest)
end

/-- Builds a `GoForest` from a list of nodes (notation convenience only). -/
def GoForest.ofList : List GoNode → GoForest
  | [] => .nil
  | x :: xs => .cons x (GoForest.ofList xs)

/-- The state transition of `complexityVisitor.Visit` on one node: the switch
increments the counter for the six branch-point kinds and for binary
expressions whose operator is `token.LAND` or `token.LOR`. -/
def visitStep (c : Nat) : NodeKind → Nat
  | .funcDecl | .ifStmt | .forStmt | .rangeStmt | .caseClause | .commClause => c + 1
  | .binaryExpr op => if op = .land ∨ op = .lor then c + 1 else c
  | .funcLit | .switchStmt | .selectStmt | .otherNode => c

mutual
/-- `ast.Walk` of the complexity visitor over one node: visit the node, then
walk all children with the same (returned) visitor, threading the counter. -/
def walkNode (c : Nat) : GoNode → Nat
  | .mk k f => walkForest (visitStep c k) f

/-- `ast.Walk` of the complexity visitor over a list of siblings. -/
def walkForest (c : Nat) : GoForest → Nat
  | .nil => c
  | .cons n f => walkForest (walkNode c n) f
end

/-- Specification-side score of a single node kind: 1 for a function or method
declaration, `if`, `for`, range statement, switch/select case clause or
communication clause, 1 for a logical-AND or logical-OR binary expression,
0 for every other kind. -/
def kindScore : NodeKind → Nat
  | .funcDecl | .ifStmt | .forStmt | .rangeStmt | .caseClause | .commClause => 1
  | .binaryExpr op => if op = .land ∨ op = .lor then 1 else 0
  | .funcLit | .switchStmt | .selectStmt | .otherNode => 0

mutual
/-- Specification-side count: sum of `kindScore` over all nodes of a subtree. -/
def nodeScore : GoNode → Nat
  | .mk k f => kindScore k + forestScore f

/-- Specification-side count over a list of sibling subtrees. -/
def forestScore : GoForest → Nat
  | .nil => 0
  | .cons n f => nodeScore n + forestScore f
end

theorem visitStep_eq (c : Nat) (k : NodeKind) : visitStep c k = c + kindScore k := by
  cases k <;> try simp [visitStep, kindScore]
  case binaryExpr op =>
    by_cases h : op = GoTok.land ∨ op = GoTok.lor <;> simp [visitStep, kindScore, h]

mutual
theorem walkNode_eq : ∀ (c : Nat) (n : GoNode), walkNode c n = c + nodeScore n
  | c, .mk k f => by
    have hf := walkForest_eq (visitStep c k) f
    rw [walkNode, nodeScore, hf, visitStep_eq]
    omega

theorem walkForest_eq : ∀ (c : Nat) (f : GoForest), walkForest c f = c + forestScore f
  | c, .nil => by rw [walkForest, forestScore]; omega
  | c, .cons n f => by
    have hn := walkNode_eq c n
    have hf := walkForest_eq (walkNode c n) f
    rw [walkForest, forestScore, hf, hn]
    omega
end

example : walkNode 0 (.mk .funcDecl .nil) = 1 := by decide
example : walkNode 0 (.mk .funcDecl (.cons (.mk .ifStmt .nil) .nil)) = 2 := by decide

/-- A receiver type expression, as far as `recvString` distinguishes shapes:
a plain identifier, a pointer (star) expression, or anything else. -/
inductive RecvExpr where
  | ident (name : String)
  | star (x : RecvExpr)
  | otherExpr
deriving DecidableEq

/-- Embeds `recvString`: the switch over the receiver type expression. -/
def recvString : RecvExpr → String
  | .ident n => n
  | .star x => "*" ++ recvString x
  | .otherExpr => "BADRECV"

/-- One field of a receiver field list (`ast.Field`): its names and its type. -/
structure Field where
  names : List String
  typ : RecvExpr
deriving DecidableEq

/-- A receiver field list (`ast.FieldList`). -/
structure FieldList where
  list : List Field
deriving DecidableEq

/-- Embeds `ast.FieldList.NumFields`: each field contributes the number of its
names, or 1 when it has none. -/
def FieldList.numFields (fl : FieldList) : Nat :=
  fl.list.foldl (fun n g => n + (if g.names.length = 0 then 1 else g.names.length)) 0

/-- A function declaration (`ast.FuncDecl`): its name, optional receiver
(`nil` embedded as `none`), the forest of children of the declaration node in
`ast.Walk` order (receiver, name, type and body subtrees), and its position. -/
structure FuncDecl where
  name : String
  recv : Option FieldList
  subtree : GoForest
  pos : Nat

/-- Embeds `funcName`: renders `(R).Name` when a receiver field is present,
the bare name otherwise. The empty-field-list branch is unreachable because
`NumFields` is positive exactly when a field exists. -/
def funcName (fn : FuncDecl) : String :=
  match fn.recv with
  | some fl =>
    if 0 < fl.numFields then
      match fl.list with
      | fd :: _ => "(" ++ recvString fd.typ ++ ")." ++ fn.name
      | [] => fn.name
    else fn.name
  | none => fn.name

/-- Embeds `complexity`: runs the visitor from counter 0 over the whole
function declaration subtree, of which the declaration node is the root. -/
def complexity (fn : FuncDecl) : Nat :=
  walkNode 0 (GoNode.mk .funcDecl fn.subtree)

/-- Embeds the `stat` record. `token.Position` is abstracted to the offset. -/
structure stat where
  PkgName : String
  FuncName : String
  Complexity : Nat
  Pos : Nat
deriving DecidableEq

/-- A top-level declaration of a parsed file: a function declaration or any
other declaration kind (ignored by `buildStats`). -/
inductive Decl where
  | funcDecl (fn : FuncDecl)
  | otherDecl

/-- A parsed file (`ast.File`): its package name and top-level declarations. -/
structure File where
  pkgName : String
  decls : List Decl

/-- The loop body of `buildStats`: a function declaration appends one `stat`
record, any other declaration is ignored. -/
def buildStep (f : File) (acc : List stat) (d : Decl) : List stat :=
  match d with
  | .funcDecl fn =>
    acc ++ [{ PkgName := f.pkgName, FuncName := funcName fn,
              Complexity := complexity fn, Pos := fn.pos }]
  | .otherDecl => acc

/-- Embeds `buildStats`: appends one `stat` per function declaration, in
declaration order, onto the accumulated list. -/
def buildStats (f : File) (stats : List stat) : List stat :=
  f.decls.foldl (buildStep f) stats

/-- One visit of the `filepath.Walk` callback: the path handed to the
callback, whether its file info is a directory, and whether the walk passed a
non-nil error for it. -/
structure WalkEntry where
  path : String
  isDirInfo : Bool
  hasErr : Bool

/-- The file-system environment: `os.Stat` directory test, `parser.ParseFile`
(on the files this program reads, assumed to parse; a parse failure calls
`log.Fatal` and never returns), and the visit sequence `filepath.Walk` would
produce for a directory root. -/
structure FS where
  isDir : String → Bool
  parseFile : String → File
  walkEntries : String → List WalkEntry

/-- Embeds `analyzeFile`: parse the file and extract its stats. -/
def analyzeFile (fs : FS) (fname : String) (stats : List stat) : List stat :=
  buildStats (fs.parseFile fname) stats

/-- Embeds `strings.HasPrefix` at the character level. -/
def strHasPre (s pre : String) : Bool :=
  pre.data.isPrefixOf s.data

/-- Embeds `strings.HasSuffix` at the character level. -/
def strHasSuf (s suf : String) : Bool :=
  suf.data.isSuffixOf s.data

/-- Embeds `isAnalyzeTargetGodeps`. The skip flag stands for the global
`skipGodepsGlobal`; `strings.Join` with `os.PathSeparator` is slash joining. -/
def isAnalyzeTargetGodeps (skipGodeps : Bool) (dirname path : String) : Bool :=
  let pre := if dirname = "." then "Godeps" else dirname ++ "/" ++ "Godeps"
  if strHasPre path pre && skipGodeps then false
  else strHasSuf path ".go"

/-- Embeds `isAnalyzeTargetVendor`. The skip flag stands for the global
`skipVendorGlobal`. -/
def isAnalyzeTargetVendor (skipVendor : Bool) (dirname path : String) : Bool :=
  let pre := if dirname = "." then "vendor" else dirname ++ "/" ++ "vendor"
  if strHasPre path pre && skipVendor then false
  else strHasSuf path ".go"

/-- Embeds the `filepath.Walk` call inside `analyzeDir` with its callback:
entries are visited in order; an entry carrying a non-nil error makes the
callback return that error, which aborts the walk (the remaining entries are
never visited); an error-free non-directory entry passing both exclusion
checks is analyzed. -/
def walkLoop (fs : FS) (skipGodeps skipVendor : Bool) (dirname : String) :
    List WalkEntry → List stat → List stat
  | [], stats => stats
  | e :: es, stats =>
    if e.hasErr then stats
    else
      walkLoop fs skipGodeps skipVendor dirname es
        (if !e.isDirInfo && isAnalyzeTargetGodeps skipGodeps dirname e.path
              && isAnalyzeTargetVendor skipVendor dirname e.path
         then analyzeFile fs e.path stats
         else stats)

/-- Embeds `analyzeDir`: runs the walk and returns the accumulated stats.
The error value returned by `filepath.Walk` is discarded by the source, so the
embedding returns only the stats. -/
def analyzeDir (fs : FS) (skipGodeps skipVendor : Bool) (dirname : String)
    (stats : List stat) : List stat :=
  walkLoop fs skipGodeps skipVendor dirname (fs.walkEntries dirname) stats

/-- Embeds `analyze`: folds over the root paths, dispatching on `isDir`,
starting from the nil slice. The flags stand for the globals read through the
exclusion checks. -/
def analyze (fs : FS) (skipGodeps skipVendor : Bool) (paths : List String) : List stat :=
  paths.foldl
    (fun stats path =>
      if fs.isDir path then analyzeDir fs skipGodeps skipVendor path stats
      else analyzeFile fs path stats)
    []

/-- Embeds `byComplexity.Less` as a relation: element `a` sorts before `b`
when its complexity is at least that of `b`. -/
def byComplexityGE (a b : stat) : Prop :=
  b.Complexity ≤ a.Complexity

instance : DecidableRel byComplexityGE :=
  fun a b => Nat.decLe b.Complexity a.Complexity

instance : IsTotal stat byComplexityGE :=
  ⟨fun a b => Nat.le_total b.Complexity a.Complexity⟩

instance : IsTrans stat byComplexityGE :=
  ⟨fun _ _ _ h1 h2 => Nat.le_trans h2 h1⟩

/-- Embeds `sort.Sort(byComplexity(statsGlobal))` as a comparison sort driven
by the `byComplexity.Less` comparator. -/
def sortStats (l : List stat) : List stat :=
  List.insertionSort byComplexityGE l

/-- The process-wide globals of the library: the two cached exclusion flags
and the cached stats slice, with the nil slice embedded as `[]`. -/
structure GState where
  skipGodepsGlobal : Bool
  skipVendorGlobal : Bool
  statsGlobal : List stat

/-- Embeds `getStats`: rebuilds the cache when it is nil or either requested
flag differs from the cached flag, then sorts the cached slice in place and
returns it. Result: the returned slice and the updated globals. -/
def getStats (fs : FS) (paths : List String) (skipGodeps skipVendor : Bool)
    (st : GState) : List stat × GState :=
  let st1 :=
    if st.statsGlobal = [] ∨ st.skipGodepsGlobal ≠ skipGodeps ∨ st.skipVendorGlobal ≠ skipVendor
    then { skipGodepsGlobal := skipGodeps, skipVendorGlobal := skipVendor,
           statsGlobal := analyze fs skipGodeps skipVendor paths }
    else st
  let sorted := sortStats st1.statsGlobal
  (sorted, { skipGodepsGlobal := st1.skipGodepsGlobal,
             skipVendorGlobal := st1.skipVendorGlobal,
             statsGlobal := sorted })

/-- A `float64` value as this program can produce one: an exact rational or
an IEEE special value arising from division by zero. -/
inductive F64 where
  | nan
  | inf
  | ninf
  | val (q : ℚ)
deriving DecidableEq

/-- IEEE `float64` division of two exactly represented rationals, exact
quotient model: division by zero gives NaN for a zero numerator and a signed
infinity otherwise. -/
def f64div (a b : ℚ) : F64 :=
  if b = 0 then (if a = 0 then .nan else if 0 < a then .inf else .ninf)
  else .val (a / b)

/-- The running total of the `average` loop. -/
def totalComplexity (stats : List stat) : Nat :=
  stats.foldl (fun total s => total + s.Complexity) 0

/-- Embeds `average`: `float64(total) / float64(len(stats))`. -/
def average (stats : List stat) : F64 :=
  f64div (totalComplexity stats : ℚ) (stats.length : ℚ)

/-- Embeds the exported `Average`: query the (possibly cached) stats and
average them; the updated globals are returned alongside. -/
def Average (fs : FS) (paths : List String) (skipGodeps skipVendor : Bool)
    (st : GState) : F64 × GState :=
  (average (getStats fs paths skipGodeps skipVendor st).1,
   (getStats fs paths skipGodeps skipVendor st).2)

/-- Specification-side sum of the complexity values, as rationals. -/
def sumComplexityQ (stats : List stat) : ℚ :=
  (stats.map (fun s => (s.Complexity : ℚ))).sum

/-- The complexity of a function declaration is the baseline 1 for the
declaration node plus the score of the children forest. -/
theorem complexity_eq (fn : FuncDecl) : complexity fn = 1 + forestScore fn.subtree := by
  rw [complexity, walkNode_eq, nodeScore]
  simp [kindScore]

/-- Every stat that the `buildStats` loop adds has complexity at least 1. -/
theorem buildStep_mem (f : File) (ds : List Decl) :
    ∀ (stats : List stat) (s : stat),
      s ∈ List.foldl (buildStep f) stats ds → s ∈ stats ∨ 1 ≤ s.Complexity := by
  induction ds with
  | nil => exact fun stats s h => Or.inl h
  | cons d ds ih =>
    intro stats s h
    rw [List.foldl_cons] at h
    rcases ih _ s h with hmem | hge
    · cases d with
      | otherDecl => exact Or.inl hmem
      | funcDecl fn =>
        simp only [buildStep] at hmem
        rcases List.mem_append.mp hmem with h1 | h2
        · exact Or.inl h1
        · right
          have hs : s = { PkgName := f.pkgName, FuncName := funcName fn,
                          Complexity := complexity fn, Pos := fn.pos } := by
            simpa using h2
          rw [hs]
          show 1 ≤ complexity fn
          rw [complexity_eq]
          omega
    · exact Or.inr hge

/-- A field list with at least one field has a positive `NumFields` count. -/
theorem numFields_pos (fl : FieldList) (fd : Field) (rest : List Field)
    (h : fl.list = fd :: rest) : 0 < fl.numFields := by
  have mono : ∀ (l : List Field) (a : Nat),
      a ≤ l.foldl (fun n g => n + (if g.names.length = 0 then 1 else g.names.length)) a := by
    intro l
    induction l with
    | nil => exact fun a => Nat.le_refl a
    | cons g l ih =>
      intro a
      rw [List.foldl_cons]
      exact Nat.le_trans (Nat.le_add_right a _) (ih _)
  rw [FieldList.numFields, h, List.foldl_cons]
  have h1 : 0 < 0 + (if fd.names.length = 0 then 1 else fd.names.length) := by
    by_cases hn : fd.names.length = 0
    · simp [hn]
    · simp [hn]
      omega
  exact Nat.lt_of_lt_of_le h1 (mono _ _)

/-- The function declaration of the claimed worked example: a function whose
body is `if a ; else if b ; for range c ; ; x = d and e`, embedded with the
walk-order children of each node. -/
def exampleFn : FuncDecl :=
  { name := "f", recv := none, pos := 0,
    subtree := .ofList
      [ .mk .otherNode .nil,
        .mk .otherNode .nil,
        .mk .otherNode (.ofList
          [ .mk .ifStmt (.ofList
              [ .mk .otherNode .nil,
                .mk .otherNode .nil,
                .mk .ifStmt (.ofList
                  [ .mk .otherNode .nil,
                    .mk .otherNode (.ofList
                      [ .mk .rangeStmt (.ofList
                          [ .mk .otherNode .nil,
                            .mk .otherNode .nil ]) ]) ]) ]),
            .mk .otherNode (.ofList
              [ .mk .otherNode .nil,
                .mk (.binaryExpr .land) (.ofList
                  [ .mk .otherNode .nil, .mk .otherNode .nil ]) ]) ]) ] }

/-- Claim C1: for every function declaration subtree, the result of
`complexity` equals the specification-side count that scores 1 for each
function declaration, `if`, `for`, range statement, case clause and
communication clause node, plus 1 for each logical-AND or logical-OR binary
expression node, with no contribution from any other node kind (nested
function literal bodies included, since the walk visits them); and the worked
example body scores exactly 5. -/
theorem claim_C1 :
    (∀ fn : FuncDecl, complexity fn = nodeScore (GoNode.mk .funcDecl fn.subtree)) ∧
    complexity exampleFn = 5 := by
  refine ⟨fun fn => ?_, by decide⟩
  rw [complexity, walkNode_eq]
  omega

/-- Claim C5: every stat produced by the unit extractor (beyond those already
accumulated) has complexity at least 1, and a function whose subtree contains
no counted node and no logical operator has complexity exactly 1. -/
theorem claim_C5 :
    (∀ (f : File) (stats : List stat) (s : stat),
        s ∈ buildStats f stats → s ∈ stats ∨ 1 ≤ s.Complexity) ∧
    (∀ fn : FuncDecl, forestScore fn.subtree = 0 → complexity fn = 1) := by
  constructor
  · intro f stats s h
    rw [buildStats] at h
    exact buildStep_mem f f.decls stats s h
  · intro fn h
    rw [complexity_eq, h]

/-- Witness for claim C5 at a concrete file with one empty function. -/
theorem claim_C5_witness :
    ((⟨"p", "f", 1, 0⟩ : stat) ∈ ([] : List stat) ∨
      1 ≤ (⟨"p", "f", 1, 0⟩ : stat).Complexity) ∧
    complexity ⟨"f", none, .nil, 0⟩ = 1 :=
  ⟨claim_C5.1 ⟨"p", [.funcDecl ⟨"f", none, .nil, 0⟩]⟩ [] ⟨"p", "f", 1, 0⟩ (by decide),
   claim_C5.2 ⟨"f", none, .nil, 0⟩ (by decide)⟩

/-- Claim C6: the extractor renders the bare name when there is no receiver;
with a receiver field it renders the parenthesized receiver type followed by a
dot and the name, where the receiver type renders as the bare identifier for a
named type, a star prepended to the recursive rendering for a pointer type,
and the sentinel BADRECV for any other shape; the worked example renders as
the claimed method name. -/
theorem claim_C6 :
    (∀ fn : FuncDecl, fn.recv = none → funcName fn = fn.name) ∧
    (∀ (fn : FuncDecl) (fl : FieldList) (fd : Field) (rest : List Field),
        fn.recv = some fl → fl.list = fd :: rest →
        funcName fn = "(" ++ recvString fd.typ ++ ")." ++ fn.name) ∧
    (∀ n : String, recvString (.ident n) = n) ∧
    (∀ x : RecvExpr, recvString (.star x) = "*" ++ recvString x) ∧
    recvString .otherExpr = "BADRECV" ∧
    funcName ⟨"Dist", some ⟨[⟨["p"], .star (.ident "Point")⟩]⟩, .nil, 0⟩ = "(*Point).Dist" := by
  refine ⟨fun fn h => ?_, fun fn fl fd rest h1 h2 => ?_,
          fun n => rfl, fun x => rfl, rfl, by decide⟩
  · rw [funcName, h]
  · simp only [funcName, h1]
    rw [if_pos (numFields_pos fl fd rest h2), h2]

/-- Witness for claim C6 at a plain function and at the pointer-receiver
method of the worked example. -/
theorem claim_C6_witness :
    funcName ⟨"f", none, .nil, 0⟩ = "f" ∧
    funcName ⟨"Dist", some ⟨[⟨["p"], .star (.ident "Point")⟩]⟩, .nil, 0⟩ =
      "(" ++ recvString (RecvExpr.star (.ident "Point")) ++ ")." ++ "Dist" :=
  ⟨claim_C6.1 ⟨"f", none, .nil, 0⟩ rfl,
   claim_C6.2.1 ⟨"Dist", some ⟨[⟨["p"], .star (.ident "Point")⟩]⟩, .nil, 0⟩
     ⟨[⟨["p"], .star (.ident "Point")⟩]⟩ ⟨["p"], .star (.ident "Point")⟩ [] rfl rfl⟩

/-- The loop total of `average` equals the specification-side rational sum. -/
theorem totalComplexity_eq (stats : List stat) :
    (totalComplexity stats : ℚ) = sumComplexityQ stats := by
  have h : ∀ (l : List stat) (a : Nat),
      l.foldl (fun total s => total + s.Complexity) a
        = a + (l.map (fun s => s.Complexity)).sum := by
    intro l
    induction l with
    | nil => intro a; simp
    | cons s l ih =>
      intro a
      rw [List.foldl_cons, ih, List.map_cons, List.sum_cons]
      omega
  rw [totalComplexity, h, sumComplexityQ]
  simp only [Nat.zero_add]
  rw [Nat.cast_list_sum, List.map_map]
  rfl

/-- Claim C3: on a non-empty stats list, `average` is exactly the sum of the
complexities divided by the count; on the empty list it is the NaN value of
dividing zero by zero, not an error. -/
theorem claim_C3 :
    (∀ stats : List stat, stats ≠ [] →
        average stats = F64.val (sumComplexityQ stats / (stats.length : ℚ))) ∧
    average [] = F64.nan := by
  constructor
  · intro stats h
    have hlen : (stats.length : ℚ) ≠ 0 :=
      Nat.cast_ne_zero.mpr (fun h0 => h (List.length_eq_zero.mp h0))
    simp only [average, f64div]
    rw [if_neg hlen, totalComplexity_eq]
  · simp [average, f64div, totalComplexity]

/-- Witness for claim C3 at a one-element stats list. -/
theorem claim_C3_witness :
    average [⟨"p", "f", 2, 0⟩] =
      F64.val (sumComplexityQ [⟨"p", "f", 2, 0⟩] /
        (([⟨"p", "f", 2, 0⟩] : List stat).length : ℚ)) :=
  claim_C3.1 [⟨"p", "f", 2, 0⟩] (by simp)

/-- With the Godeps flag set, a path under the Godeps directory of the walked
root is not an analysis target. -/
theorem iATG_skip (dirname path : String)
    (h : strHasPre path (if dirname = "." then "Godeps" else dirname ++ "/" ++ "Godeps") = true) :
    isAnalyzeTargetGodeps true dirname path = false := by
  simp [isAnalyzeTargetGodeps, h]

/-- With the vendor flag set, a path under the vendor directory of the walked
root is not an analysis target. -/
theorem iATV_skip (dirname path : String)
    (h : strHasPre path (if dirname = "." then "vendor" else dirname ++ "/" ++ "vendor") = true) :
    isAnalyzeTargetVendor true dirname path = false := by
  simp [isAnalyzeTargetVendor, h]

/-- A path accepted by the Godeps check carries the Go source suffix. -/
theorem iATG_suf (g : Bool) (dirname path : String)
    (h : isAnalyzeTargetGodeps g dirname path = true) :
    strHasSuf path ".go" = true := by
  simp only [isAnalyzeTargetGodeps] at h
  by_cases hc :
      (strHasPre path (if dirname = "." then "Godeps" else dirname ++ "/" ++ "Godeps") && g)
        = true
  · rw [if_pos hc] at h
    exact absurd h (by simp)
  · rw [if_neg hc] at h
    exact h

/-- Claim C7: with the first exclusion flag set, every walked path starting
with the joined root-and-Godeps prefix (bare name for the dot root) fails the
Godeps check and hence the combined candidate test, regardless of the second
flag; symmetrically for vendor; and a path passing the combined candidate
test always ends in the Go source suffix. -/
theorem claim_C7 :
    (∀ (dirname path : String) (skipVendor : Bool),
        strHasPre path (if dirname = "." then "Godeps" else dirname ++ "/" ++ "Godeps") = true →
        isAnalyzeTargetGodeps true dirname path = false ∧
        (isAnalyzeTargetGodeps true dirname path &&
          isAnalyzeTargetVendor skipVendor dirname path) = false) ∧
    (∀ (dirname path : String) (skipGodeps : Bool),
        strHasPre path (if dirname = "." then "vendor" else dirname ++ "/" ++ "vendor") = true →
        isAnalyzeTargetVendor true dirname path = false ∧
        (isAnalyzeTargetGodeps skipGodeps dirname path &&
          isAnalyzeTargetVendor true dirname path) = false) ∧
    (∀ (skipGodeps skipVendor : Bool) (dirname path : String),
        (isAnalyzeTargetGodeps skipGodeps dirname path &&
          isAnalyzeTargetVendor skipVendor dirname path) = true →
        strHasSuf path ".go" = true) := by
  refine ⟨fun d p sv h => ⟨iATG_skip d p h, ?_⟩,
          fun d p sg h => ⟨iATV_skip d p h, ?_⟩,
          fun g v d p h => iATG_suf g d p (Bool.and_eq_true _ _ |>.mp h).1⟩
  · rw [iATG_skip d p h]
    rfl
  · rw [iATV_skip d p h, Bool.and_false]

/-- Witness for claim C7 at concrete roots and paths. -/
theorem claim_C7_witness :
    (isAnalyzeTargetGodeps true "root" "root/Godeps/x.go" = false ∧
      (isAnalyzeTargetGodeps true "root" "root/Godeps/x.go" &&
        isAnalyzeTargetVendor false "root" "root/Godeps/x.go") = false) ∧
    (isAnalyzeTargetVendor true "." "vendor/y.go" = false ∧
      (isAnalyzeTargetGodeps false "." "vendor/y.go" &&
        isAnalyzeTargetVendor true "." "vendor/y.go") = false) ∧
    strHasSuf "d/a.go" ".go" = true :=
  ⟨claim_C7.1 "root" "root/Godeps/x.go" false (by decide),
   claim_C7.2.1 "." "vendor/y.go" false (by decide),
   claim_C7.2.2 false false "d" "d/a.go" (by decide)⟩

/-- Claim C9: a root that is not a directory is handed directly to the file
analyzer, with no suffix filter and no exclusion check applied. -/
theorem claim_C9 :
    ∀ (fs : FS) (skipGodeps skipVendor : Bool) (p : String),
      fs.isDir p = false →
      analyze fs skipGodeps skipVendor [p] = analyzeFile fs p [] ∧
      analyzeFile fs p [] = buildStats (fs.parseFile p) [] := by
  intro fs g v p h
  refine ⟨?_, rfl⟩
  simp [analyze, h]

/-- A file-system environment for the claim C9 witness: the root is a plain
file without the source suffix. -/
def fsC9 : FS :=
  { isDir := fun _ => false,
    parseFile := fun _ => { pkgName := "p", decls := [] },
    walkEntries := fun _ => [] }

/-- Witness for claim C9 at a root that is a plain non-Go file. -/
theorem claim_C9_witness :
    analyze fsC9 false false ["notes.txt"] = analyzeFile fsC9 "notes.txt" [] ∧
    analyzeFile fsC9 "notes.txt" [] = buildStats (fsC9.parseFile "notes.txt") [] :=
  claim_C9 fsC9 false false "notes.txt" rfl

/-- A file-system environment for claim C8: a directory whose walk yields one
good Go file, then an entry with a file-system error, then another Go file. -/
def fsC8 : FS :=
  { isDir := fun _ => true,
    parseFile := fun f =>
      if f = "d/a.go" then { pkgName := "p", decls := [.funcDecl ⟨"a", none, .nil, 1⟩] }
      else { pkgName := "p", decls := [.funcDecl ⟨"b", none, .nil, 2⟩] },
    walkEntries := fun _ =>
      [⟨"d/a.go", false, false⟩, ⟨"d/oops", false, true⟩, ⟨"d/b.go", false, false⟩] }

/-- Counterexample to claim C8 as stated: a walk hits a file-system error
after one file was already analyzed, yet `analyzeDir` returns that partial
result and exposes no error at all, rather than propagating the error and
returning no partial results. -/
theorem claim_C8_counterexample :
    (fsC8.walkEntries "d").any (fun e => e.hasErr) = true ∧
    analyzeDir fsC8 false false "d" [] = [⟨"p", "a", 1, 1⟩] ∧
    analyzeDir fsC8 false false "d" [] ≠ [] :=
  ⟨rfl, by decide, by decide⟩

/-- Claim C8 amended: when a walk entry carries a file-system error, the
walker aborts further traversal at that entry (everything after it is never
analyzed), but the error is discarded: `analyzeDir` returns the partial stats
accumulated before the error, and no error reaches the caller. -/
theorem claim_C8 :
    ∀ (fs : FS) (skipGodeps skipVendor : Bool) (dirname : String)
      (es1 : List WalkEntry) (e : WalkEntry) (es2 : List WalkEntry) (stats : List stat),
      e.hasErr = true →
      walkLoop fs skipGodeps skipVendor dirname (es1 ++ e :: es2) stats =
        walkLoop fs skipGodeps skipVendor dirname es1 stats ∧
      analyzeDir fs skipGodeps skipVendor dirname stats =
        walkLoop fs skipGodeps skipVendor dirname (fs.walkEntries dirname) stats := by
  intro fs g v dirname es1 e es2 stats he
  refine ⟨?_, rfl⟩
  induction es1 generalizing stats with
  | nil => simp [walkLoop, he]
  | cons x xs ih =>
    rw [List.cons_append, walkLoop, walkLoop]
    cases hx : x.hasErr
    · simp only [hx, Bool.false_eq_true, if_false]
      exact ih _
    · simp [hx]

/-- Witness for the amended claim C8 at the concrete erroring walk. -/
theorem claim_C8_witness :
    walkLoop fsC8 false false "d"
        ([⟨"d/a.go", false, false⟩] ++ ⟨"d/oops", false, true⟩ :: [⟨"d/b.go", false, false⟩]) [] =
      walkLoop fsC8 false false "d" [⟨"d/a.go", false, false⟩] [] ∧
    analyzeDir fsC8 false false "d" [] =
      walkLoop fsC8 false false "d" (fsC8.walkEntries "d") [] :=
  claim_C8 fsC8 false false "d" [⟨"d/a.go", false, false⟩] ⟨"d/oops", false, true⟩
    [⟨"d/b.go", false, false⟩] [] rfl

/-- On a warm cache with matching flags, `getStats` only sorts and serves the
cached slice. -/
theorem getStats_hit (fs : FS) (paths : List String) (g v : Bool) (st : GState)
    (h : ¬(st.statsGlobal = [] ∨ st.skipGodepsGlobal ≠ g ∨ st.skipVendorGlobal ≠ v)) :
    getStats fs paths g v st =
      (sortStats st.statsGlobal,
       ⟨st.skipGodepsGlobal, st.skipVendorGlobal, sortStats st.statsGlobal⟩) := by
  simp only [getStats]
  rw [if_neg h]

/-- On a cold cache or differing flags, `getStats` rebuilds from scratch. -/
theorem getStats_miss (fs : FS) (paths : List String) (g v : Bool) (st : GState)
    (h : st.statsGlobal = [] ∨ st.skipGodepsGlobal ≠ g ∨ st.skipVendorGlobal ≠ v) :
    getStats fs paths g v st =
      (sortStats (analyze fs g v paths),
       ⟨g, v, sortStats (analyze fs g v paths)⟩) := by
  simp only [getStats]
  rw [if_pos h]

/-- Claim C2: a call whose flag pair equals the cached pair and for which a
cached slice exists serves the cached slice (sorted) and is independent of
both the environment and the paths argument, so no analysis re-runs; a call
with a differing flag pair or an absent cache rebuilds the whole result from
a fresh analysis of the given paths. -/
theorem claim_C2 :
    ∀ (fs fs2 : FS) (paths paths2 : List String) (g v : Bool) (st : GState),
      (st.statsGlobal ≠ [] → st.skipGodepsGlobal = g → st.skipVendorGlobal = v →
        getStats fs paths g v st = getStats fs2 paths2 g v st ∧
        (getStats fs paths g v st).1 = sortStats st.statsGlobal) ∧
      ((st.statsGlobal = [] ∨ st.skipGodepsGlobal ≠ g ∨ st.skipVendorGlobal ≠ v) →
        getStats fs paths g v st =
          (sortStats (analyze fs g v paths),
           ⟨g, v, sortStats (analyze fs g v paths)⟩)) := by
  intro fs fs2 paths paths2 g v st
  constructor
  · intro h1 h2 h3
    have hc : ¬(st.statsGlobal = [] ∨ st.skipGodepsGlobal ≠ g ∨ st.skipVendorGlobal ≠ v) := by
      push_neg
      exact ⟨h1, h2, h3⟩
    rw [getStats_hit fs paths g v st hc, getStats_hit fs2 paths2 g v st hc]
    exact ⟨rfl, rfl⟩
  · exact getStats_miss fs paths g v st

/-- A file-system environment for the claim C2 witness. -/
def fsC2 : FS :=
  { isDir := fun _ => false,
    parseFile := fun _ => { pkgName := "p", decls := [.funcDecl ⟨"g", none, .nil, 3⟩] },
    walkEntries := fun _ => [] }

/-- A second, different environment for the claim C2 witness. -/
def fsC2b : FS :=
  { isDir := fun _ => false,
    parseFile := fun _ => { pkgName := "q", decls := [] },
    walkEntries := fun _ => [] }

/-- Witness for claim C2: a warm-cache call across two different environments
and path lists, and a cold-cache rebuild. -/
theorem claim_C2_witness :
    (getStats fsC2 ["x"] false false ⟨false, false, [⟨"p", "f", 2, 0⟩]⟩ =
       getStats fsC2b ["y"] false false ⟨false, false, [⟨"p", "f", 2, 0⟩]⟩ ∧
     (getStats fsC2 ["x"] false false ⟨false, false, [⟨"p", "f", 2, 0⟩]⟩).1 =
       sortStats [⟨"p", "f", 2, 0⟩]) ∧
    getStats fsC2 ["x"] false false ⟨false, false, []⟩ =
      (sortStats (analyze fsC2 false false ["x"]),
       ⟨false, false, sortStats (analyze fsC2 false false ["x"])⟩) :=
  ⟨(claim_C2 fsC2 fsC2b ["x"] ["y"] false false ⟨false, false, [⟨"p", "f", 2, 0⟩]⟩).1
      (by decide) rfl rfl,
   (claim_C2 fsC2 fsC2b ["x"] ["y"] false false ⟨false, false, []⟩).2 (Or.inl rfl)⟩

/-- The slice returned by `getStats` is sorted by the Less comparator. -/
theorem getStats_fst_sorted (fs : FS) (paths : List String) (g v : Bool) (st : GState) :
    List.Sorted byComplexityGE (getStats fs paths g v st).1 := by
  by_cases hc : (st.statsGlobal = [] ∨ st.skipGodepsGlobal ≠ g ∨ st.skipVendorGlobal ≠ v)
  · rw [getStats_miss fs paths g v st hc]
    exact List.sorted_insertionSort byComplexityGE _
  · rw [getStats_hit fs paths g v st hc]
    exact List.sorted_insertionSort byComplexityGE _

/-- Claim C4: the sequence returned by the measurement entry point is sorted
in descending order of complexity: each element has complexity at least that
of its successor. -/
theorem claim_C4 :
    ∀ (fs : FS) (paths : List String) (g v : Bool) (st : GState) (i : Nat)
      (h : i + 1 < (getStats fs paths g v st).1.length),
      ((getStats fs paths g v st).1.get ⟨i + 1, h⟩).Complexity ≤
        ((getStats fs paths g v st).1.get ⟨i, Nat.lt_of_succ_lt h⟩).Complexity := by
  intro fs paths g v st i h
  exact (getStats_fst_sorted fs paths g v st).rel_get_of_lt (Nat.lt_succ_self i)

/-- A file-system environment for the claim C4 witness. -/
def fsC4 : FS :=
  { isDir := fun _ => false,
    parseFile := fun _ => { pkgName := "p", decls := [] },
    walkEntries := fun _ => [] }

/-- Witness for claim C4 at a warm cache holding two stats out of order. -/
theorem claim_C4_witness :
    ((getStats fsC4 ["x"] false false ⟨false, false, [⟨"p", "f", 1, 0⟩, ⟨"p", "g", 2, 0⟩]⟩).1.get
        ⟨1, by decide⟩).Complexity ≤
      ((getStats fsC4 ["x"] false false ⟨false, false, [⟨"p", "f", 1, 0⟩, ⟨"p", "g", 2, 0⟩]⟩).1.get
        ⟨0, by decide⟩).Complexity :=
  claim_C4 fsC4 ["x"] false false ⟨false, false, [⟨"p", "f", 1, 0⟩, ⟨"p", "g", 2, 0⟩]⟩ 0
    (by decide)

/-- Claim C10: when a rebuild computes zero measurements, the cached slice is
the nil slice, which the cache test treats as an absent cache, so the next
call even with the identical flag pair rebuilds from a fresh analysis. -/
theorem claim_C10 :
    ∀ (fs fs2 : FS) (paths paths2 : List String) (g v : Bool) (st : GState),
      (st.statsGlobal = [] ∨ st.skipGodepsGlobal ≠ g ∨ st.skipVendorGlobal ≠ v) →
      analyze fs g v paths = [] →
      (getStats fs paths g v st).2.statsGlobal = [] ∧
      getStats fs2 paths2 g v (getStats fs paths g v st).2 =
        (sortStats (analyze fs2 g v paths2),
         ⟨g, v, sortStats (analyze fs2 g v paths2)⟩) := by
  intro fs fs2 paths paths2 g v st hc hemp
  have h2 : (getStats fs paths g v st).2.statsGlobal = [] := by
    rw [getStats_miss fs paths g v st hc, hemp]
    rfl
  exact ⟨h2, getStats_miss fs2 paths2 g v _ (Or.inl h2)⟩

/-- An environment whose analysis finds no functions, for claim C10. -/
def fsC10 : FS :=
  { isDir := fun _ => false,
    parseFile := fun _ => { pkgName := "p", decls := [] },
    walkEntries := fun _ => [] }

/-- A second environment whose analysis does find a function, for claim C10. -/
def fsC10b : FS :=
  { isDir := fun _ => false,
    parseFile := fun _ => { pkgName := "p", decls := [.funcDecl ⟨"h", none, .nil, 5⟩] },
    walkEntries := fun _ => [] }

/-- Witness for claim C10: an empty first run leaves a nil cache, and the
second identical-flags call rebuilds against the second environment. -/
theorem claim_C10_witness :
    (getStats fsC10 ["x"] false false ⟨false, false, []⟩).2.statsGlobal = [] ∧
    getStats fsC10b ["y"] false false (getStats fsC10 ["x"] false false ⟨false, false, []⟩).2 =
      (sortStats (analyze fsC10b false false ["y"]),
       ⟨false, false, sortStats (analyze fsC10b false false ["y"])⟩) :=
  claim_C10 fsC10 fsC10b ["x"] ["y"] false false ⟨false, false, []⟩ (Or.inl rfl) (by decide)

end Gocyclolib
